import Mathlib

/-!
A verification development for the pica-clipboard core: a shallow embedding of
the content store (`src/core/database.rs`), the capture monitor
(`src/core/clipboard.rs`) and the orchestrator (`src/core/manager.rs`),
together with theorems settling the specified properties.

Modelling conventions:
* The SQLite tables are lists of row records kept in rowid (scan) order;
  `ORDER BY` is a stable insertion sort over that scan order, which is the
  deterministic behaviour of a full-table scan fed to a stable sorter.
* The FTS5 shadow table `history_fts` is a list of `(rowid, content,
  source_app)` entries; the three triggers of `init_schema` are inlined into
  each mutating operation.
* `strftime('%s','now')` is modelled by an ambient clock field `now` carried
  in the store state.
* The FTS5 `MATCH` operator is an opaque parameter `m : String → FtsEntry →
  Bool` (query, indexed row) — theorems hold for every match semantics.
* SHA-256 fingerprints are an opaque parameter `hash : String → String`.
-/

namespace Pica

/-- `ClipboardType` from `src/core/types.rs` (Text = 1, Image = 2, File = 3). -/
inductive ClipboardType where
  | text
  | image
  | file
deriving Repr, DecidableEq

/-- The integer stored in the `type` column (`item.type_ as i64`). -/
def ClipboardType.toInt : ClipboardType → Int
  | .text => 1
  | .image => 2
  | .file => 3

/-- `impl From<i64> for ClipboardType` — unknown values default to `Text`. -/
def ClipboardType.fromInt (v : Int) : ClipboardType :=
  if v = 1 then .text else if v = 2 then .image else if v = 3 then .file else .text

/-- `ClipboardItem` from `src/core/types.rs`. -/
structure ClipboardItem where
  id : Option Int
  type_ : ClipboardType
  content : String
  content_hash : String
  source_app : Option String
  created_at : Int
  is_pinned : Bool
  tags : List String
deriving Repr, DecidableEq

/-- A row of the `history` table (the `type` column stores an integer). -/
structure HistoryRow where
  id : Int
  type_ : Int
  content : String
  content_hash : String
  source_app : Option String
  created_at : Int
  is_pinned : Bool
deriving Repr, DecidableEq

/-- An entry of the `history_fts` shadow index: the indexed text columns keyed
by the base row's rowid. -/
structure FtsEntry where
  rowid : Int
  content : String
  source_app : Option String
deriving Repr, DecidableEq

/-- A row of the `categories` table. In `src/core/types.rs` the struct's `id`
is `Option<i64>`; rows read back from the table always carry `Some id`, so
table rows are modelled with a plain `Int` id. -/
structure Category where
  id : Int
  name : String
  icon : Option String
  sort_order : Int
  is_locked : Bool
deriving Repr, DecidableEq

/-- A row of the `snippets` table. -/
structure Snippet where
  id : Int
  category_id : Int
  title : String
  content : String
  is_masked : Bool
  usage_count : Int
  updated_at : Int
deriving Repr, DecidableEq

/-- The persistent store state: the three base tables in rowid (scan) order,
the FTS shadow index, the AUTOINCREMENT counters, and the ambient clock. -/
structure DBState where
  history : List HistoryRow
  historyFts : List FtsEntry
  categories : List Category
  snippets : List Snippet
  nextHistoryId : Int
  nextSnippetId : Int
  now : Int
deriving Repr, DecidableEq

/-- `Database::init_schema` starting from an empty database
(`Database::open_in_memory`): empty tables and the three seeded categories. -/
def init_state (now : Int) : DBState :=
  { history := []
    historyFts := []
    categories :=
      [ { id := 1, name := "General", icon := some "📝", sort_order := 0, is_locked := false }
      , { id := 2, name := "Passwords", icon := some "🔑", sort_order := 1, is_locked := false }
      , { id := 3, name := "Code", icon := some "💻", sort_order := 2, is_locked := false } ]
    snippets := []
    nextHistoryId := 1
    nextSnippetId := 1
    now := now }

/-- Insert `x` into `l` before the first element `y` with `lt y x = false`.
Together with `sqlSort` this is a stable insertion sort: ties keep scan
order. -/
def insertS (lt : α → α → Bool) (x : α) : List α → List α
  | [] => [x]
  | y :: ys => if lt y x then y :: insertS lt x ys else x :: y :: ys

/-- Stable sort of a scan-ordered list by the strict comparison `lt`; models
an `ORDER BY` clause over a full-table scan. -/
def sqlSort (lt : α → α → Bool) : List α → List α
  | [] => []
  | x :: xs => insertS lt x (sqlSort lt xs)

/-- `ORDER BY is_pinned DESC, created_at DESC` as a strict comparison. -/
def histLt (a b : HistoryRow) : Bool :=
  (a.is_pinned && !b.is_pinned) ||
    ((a.is_pinned == b.is_pinned) && decide (b.created_at < a.created_at))

/-- `ORDER BY sort_order ASC` as a strict comparison. -/
def catLt (a b : Category) : Bool :=
  decide (a.sort_order < b.sort_order)

/-- `ORDER BY usage_count DESC, updated_at DESC` as a strict comparison. -/
def snipLt (a b : Snippet) : Bool :=
  decide (b.usage_count < a.usage_count) ||
    ((a.usage_count == b.usage_count) && decide (b.updated_at < a.updated_at))

/-- `Database::row_to_clipboard_item`. -/
def row_to_clipboard_item (r : HistoryRow) : ClipboardItem :=
  { id := some r.id
    type_ := ClipboardType.fromInt r.type_
    content := r.content
    content_hash := r.content_hash
    source_app := r.source_app
    created_at := r.created_at
    is_pinned := r.is_pinned
    tags := [] }

/-- The `history_au` trigger fired by an `UPDATE ... WHERE id = ?`: the old
index entry for that rowid is removed and the updated row's text columns are
re-inserted. -/
def ftsAfterUpdate (id : Int) (hist : List HistoryRow) (fts : List FtsEntry) : List FtsEntry :=
  fts.filter (fun e => e.rowid != id) ++
    (hist.filter (fun x => x.id == id)).map (fun x => ⟨x.id, x.content, x.source_app⟩)

/-- `Database::insert_history`: look up a row with the same `content_hash`
(first row in scan order); if found, bump only its `created_at` to now and
return its id; otherwise insert a fresh row (the `history_ai` trigger mirrors
it into the index) and return the new rowid. -/
def insert_history (item : ClipboardItem) (db : DBState) : Int × DBState :=
  match db.history.find? (fun r => r.content_hash == item.content_hash) with
  | some r =>
    let hist := db.history.map (fun x => if x.id == r.id then { x with created_at := db.now } else x)
    (r.id, { db with history := hist, historyFts := ftsAfterUpdate r.id hist db.historyFts })
  | none =>
    let newId := db.nextHistoryId
    let row : HistoryRow :=
      { id := newId
        type_ := item.type_.toInt
        content := item.content
        content_hash := item.content_hash
        source_app := item.source_app
        created_at := db.now
        is_pinned := item.is_pinned }
    (newId,
      { db with
          history := db.history ++ [row]
          historyFts := db.historyFts ++ [⟨newId, row.content, row.source_app⟩]
          nextHistoryId := newId + 1 })

/-- `Database::get_item_by_id`. -/
def get_item_by_id (id : Int) (db : DBState) : Option ClipboardItem :=
  (db.history.find? (fun r => r.id == id)).map row_to_clipboard_item

/-- `Database::get_recent_history`: `ORDER BY is_pinned DESC, created_at DESC
LIMIT ? OFFSET ?`. -/
def get_recent_history (limit offset : Nat) (db : DBState) : List ClipboardItem :=
  (((sqlSort histLt db.history).drop offset).take limit).map row_to_clipboard_item

/-- `Database::search_history`: rows whose id is in the set of index rowids
matching the query, re-sorted pinned-then-recency, capped at 50. The `MATCH`
semantics is the opaque parameter `m`. -/
def search_history (m : String → FtsEntry → Bool) (q : String) (db : DBState) :
    List ClipboardItem :=
  let hits := db.historyFts.filter (m q)
  ((sqlSort histLt (db.history.filter (fun r => hits.any (fun e => e.rowid == r.id)))).take 50).map
    row_to_clipboard_item

/-- `Database::delete_history`: delete the base row; the `history_ad` trigger
removes the index entry for the same rowid. -/
def delete_history (id : Int) (db : DBState) : DBState :=
  { db with
      history := db.history.filter (fun r => r.id != id)
      historyFts := db.historyFts.filter (fun e => e.rowid != id) }

/-- `Database::toggle_pin`: read the current flag (an error — `none` — if the
row does not exist), write its negation back, return the new value. The
`UPDATE` fires the `history_au` trigger. -/
def toggle_pin (id : Int) (db : DBState) : Option (Bool × DBState) :=
  match db.history.find? (fun r => r.id == id) with
  | none => none
  | some r =>
    let ns := !r.is_pinned
    let hist := db.history.map (fun x => if x.id == id then { x with is_pinned := ns } else x)
    some (ns, { db with history := hist, historyFts := ftsAfterUpdate id hist db.historyFts })

/-- `Database::get_categories`: `ORDER BY sort_order ASC`. -/
def get_categories (db : DBState) : List Category :=
  sqlSort catLt db.categories

/-- `Database::get_snippets`: rows of one category, `ORDER BY usage_count
DESC, updated_at DESC`. -/
def get_snippets (category_id : Int) (db : DBState) : List Snippet :=
  sqlSort snipLt (db.snippets.filter (fun s => s.category_id == category_id))

/-- `Database::add_snippet`: insert with the declared foreign key on
`category_id` enforced (`foreign_keys` pragma is ON in `Database::new`);
`updated_at` takes its column default. -/
def add_snippet (s : Snippet) (db : DBState) : Option (Int × DBState) :=
  if db.categories.any (fun c => c.id == s.category_id) then
    let newId := db.nextSnippetId
    some (newId,
      { db with
          snippets := db.snippets ++
            [{ s with id := newId, updated_at := db.now }]
          nextSnippetId := newId + 1 })
  else none

/-- Modelled from the spec: no delete-category operation exists under `src`
(only the schema's `FOREIGN KEY(category_id) REFERENCES categories(id) ON
DELETE CASCADE` declaration and the `foreign_keys` pragma). This models
`DELETE FROM categories WHERE id = ?` with the engine's declared cascade:
"deleting the category cascades delete of its snippets". -/
def delete_category (id : Int) (db : DBState) : DBState :=
  { db with
      categories := db.categories.filter (fun c => c.id != id)
      snippets := db.snippets.filter (fun s => s.category_id != id) }

/-! ## Capture monitor (`src/core/clipboard.rs`)

One poll tick of `ClipboardMonitor::check_clipboard`, split into its text
branch and its image branch. `compute_hash` (SHA-256 hex) is the opaque
parameter `hash`; `tx.try_send` is modelled by the emitted `Option
ClipboardItem` (best-effort: a full channel drops the event downstream). -/

/-- `utils::text::clean_text`: `text.trim().to_string()`. Whitespace
trimming is written out structurally over the character list (dropping
leading and trailing whitespace characters), which is the behaviour of
`str::trim` restricted to the whitespace characters Lean's
`Char.isWhitespace` recognises. -/
def clean_text (t : String) : String :=
  String.mk (((t.data.dropWhile Char.isWhitespace).reverse.dropWhile
    Char.isWhitespace).reverse)

/-- The monitor's single last-observed-fingerprint slot. -/
structure MonitorState where
  last_hash : String
deriving Repr, DecidableEq

/-- The item built by the text branch. -/
def mkTextItem (content h : String) (now : Int) : ClipboardItem :=
  { id := none
    type_ := .text
    content := content
    content_hash := h
    source_app := none
    created_at := now
    is_pinned := false
    tags := [] }

/-- The item built by the image branch (`content` is the saved cache path). -/
def mkImageItem (path h : String) (now : Int) : ClipboardItem :=
  { id := none
    type_ := .image
    content := path
    content_hash := h
    source_app := none
    created_at := now
    is_pinned := false
    tags := [] }

/-- Text branch of `check_clipboard`: trim, discard if empty (slot
untouched), otherwise emit exactly when the fingerprint differs from the
slot, updating the slot. -/
def tickText (hash : String → String) (text : String) (s : MonitorState) (now : Int) :
    Option ClipboardItem × MonitorState :=
  let cleaned := clean_text text
  if cleaned.isEmpty then (none, s)
  else
    let h := hash cleaned
    if h != s.last_hash then
      (some (mkTextItem cleaned h now), { last_hash := h })
    else (none, s)

/-- Image branch of `check_clipboard`: `h` is `compute_hash` of the raw
pixel bytes; `saveResult` is the outcome of `save_image` (`none` = failure,
propagated by `?` as the tick's error). The slot is assigned before the save
is attempted, so a failed save still retains the fingerprint. -/
def tickImage (h : String) (saveResult : Option String) (s : MonitorState) (now : Int) :
    Except Unit (Option ClipboardItem) × MonitorState :=
  if h != s.last_hash then
    let s' : MonitorState := { last_hash := h }
    match saveResult with
    | none => (.error (), s')
    | some path => (.ok (some (mkImageItem path h now)), s')
  else (.ok none, s)

/-! ## Orchestrator (`src/core/manager.rs`) -/

/-- `AppCommand` from `src/core/types.rs`. -/
inductive AppCommand where
  | pasteItem (id : Int)
  | deleteHistory (id : Int)
  | togglePin (id : Int)
  | search (query : String)
  | addSnippet (s : Snippet)
  | toggleQueueMode (enabled : Bool)
  | nextQueueItem
  | exit
deriving Repr, DecidableEq

/-- The externally observable actions of one orchestrator handler turn: the
four `UiHandle` calls plus the replay side effect (clipboard write and
synthetic paste chord) of `perform_paste`. -/
inductive MEvent where
  | uiUpdateHistory (items : List ClipboardItem)
  | uiUpdateSearch (items : List ClipboardItem)
  | uiHide
  | uiNotify (msg : String)
  | osPaste (item : ClipboardItem)
deriving Repr, DecidableEq

/-- `Manager`'s mutable state: the store plus the in-memory queue-mode
FIFO and flag. -/
structure ManagerState where
  db : DBState
  paste_queue : List ClipboardItem
  is_queue_mode : Bool
deriving Repr, DecidableEq

/-- `Manager::perform_paste`: hide the overlay, settle, write the entry to
the OS clipboard and inject the paste chord — abstracted to its observable
events. -/
def perform_paste (item : ClipboardItem) : List MEvent :=
  [.uiHide, .osPaste item]

/-- `Manager::refresh_history`: eager full refresh of the recent page. -/
def refresh_history (db : DBState) : List MEvent :=
  [.uiUpdateHistory (get_recent_history 50 0 db)]

/-- `Manager::handle_clipboard_update`: persist; in queue mode additionally
append to the FIFO and report the new queue length; either way refresh. -/
def handle_clipboard_update (item : ClipboardItem) (s : ManagerState) :
    ManagerState × List MEvent :=
  let db' := (insert_history item s.db).2
  if s.is_queue_mode then
    let q' := s.paste_queue ++ [item]
    ({ s with db := db', paste_queue := q' },
      [.uiNotify ("Added to queue. Size: " ++ toString q'.length)] ++ refresh_history db')
  else
    ({ s with db := db' }, refresh_history db')

/-- `Manager::handle_command` (the `Exit` arm is handled by the run loop and
does nothing here). `m` is the opaque FTS match semantics threaded to
`search_history`. -/
def handle_command (m : String → FtsEntry → Bool) (cmd : AppCommand) (s : ManagerState) :
    ManagerState × List MEvent :=
  match cmd with
  | .pasteItem id =>
    match get_item_by_id id s.db with
    | some item => (s, perform_paste item)
    | none => (s, [])
  | .deleteHistory id =>
    let db' := delete_history id s.db
    ({ s with db := db' }, refresh_history db')
  | .togglePin id =>
    let db' := match toggle_pin id s.db with
      | some (_, d) => d
      | none => s.db
    ({ s with db := db' }, refresh_history db')
  | .search q =>
    if q.isEmpty then (s, refresh_history s.db)
    else (s, [.uiUpdateSearch (search_history m q s.db)])
  | .addSnippet snip =>
    let db' := match add_snippet snip s.db with
      | some (_, d) => d
      | none => s.db
    ({ s with db := db' }, [])
  | .toggleQueueMode enabled =>
    let q' := if enabled then s.paste_queue else []
    ({ s with is_queue_mode := enabled, paste_queue := q' },
      [.uiNotify ("Queue Mode: " ++ toString enabled)])
  | .nextQueueItem =>
    match s.paste_queue with
    | [] => (s, [.uiNotify "Queue empty"])
    | item :: rest =>
      ({ s with paste_queue := rest },
        perform_paste item ++ [.uiNotify ("Queue Size: " ++ toString rest.length)])
  | .exit => (s, [])

/-! ## Order relations named by the spec -/

/-- The §3 listing invariant between two returned entries `a` before `b`:
pinned rows precede unpinned ones, and within a pin-group `created_at` is
descending. -/
def pinnedRecencyLE (a b : ClipboardItem) : Prop :=
  (b.is_pinned = true → a.is_pinned = true) ∧
    (a.is_pinned = b.is_pinned → b.created_at ≤ a.created_at)

/-- The same invariant on raw history rows. -/
def rowLE (a b : HistoryRow) : Prop :=
  (b.is_pinned = true → a.is_pinned = true) ∧
    (a.is_pinned = b.is_pinned → b.created_at ≤ a.created_at)

/-- Category listing order: by `sort_order`, ties broken by `id`. -/
def catOrder (a b : Category) : Prop :=
  a.sort_order < b.sort_order ∨ (a.sort_order = b.sort_order ∧ a.id < b.id)

/-- The §3 dedup invariant: at most one history row per fingerprint. -/
def UniqueFingerprint (l : List HistoryRow) : Prop :=
  l.Pairwise (fun a b => a.content_hash ≠ b.content_hash)

/-! ## Concrete fixtures for evaluating the theorems on closed inputs -/

/-- A concrete text capture. -/
def itemW1 : ClipboardItem :=
  { id := none, type_ := .text, content := "alpha beta", content_hash := "h1",
    source_app := some "term", created_at := 5, is_pinned := false, tags := [] }

/-- A second, distinct text capture. -/
def itemW2 : ClipboardItem :=
  { id := none, type_ := .text, content := "gamma", content_hash := "h2",
    source_app := none, created_at := 6, is_pinned := false, tags := [] }

/-- A third distinct capture. -/
def itemW3 : ClipboardItem :=
  { id := none, type_ := .text, content := "delta", content_hash := "h3",
    source_app := none, created_at := 7, is_pinned := false, tags := [] }

/-- A store holding the first two captures. -/
def dbW : DBState := (insert_history itemW2 (insert_history itemW1 (init_state 100)).2).2

/-- The stored row of `itemW1` inside `dbW`. -/
def rowW1 : HistoryRow :=
  { id := 1, type_ := 1, content := "alpha beta", content_hash := "h1",
    source_app := some "term", created_at := 100, is_pinned := false }

/-- The shadow-index entry of `itemW2` inside `dbW`. -/
def eW : FtsEntry := { rowid := 2, content := "gamma", source_app := none }

/-- The entry `itemW2` reads back as. -/
def rW : ClipboardItem :=
  { id := some 2, type_ := .text, content := "gamma", content_hash := "h2",
    source_app := none, created_at := 100, is_pinned := false, tags := [] }

/-- A concrete match semantics: exact content equality. -/
def mW : String → FtsEntry → Bool := fun q e => e.content == q

/-- A manager state with queue mode on and an empty FIFO. -/
def s0 : ManagerState := { db := init_state 100, paste_queue := [], is_queue_mode := true }

/-- A manager state with queue mode off. -/
def t0 : ManagerState := { db := init_state 100, paste_queue := [], is_queue_mode := false }

/-- The manager state after capturing the three fixtures in queue mode. -/
def s3W : ManagerState :=
  (handle_clipboard_update itemW3
    (handle_clipboard_update itemW2 (handle_clipboard_update itemW1 s0).1).1).1

/-- First queue advance from `s3W`. -/
def c1W : ManagerState × List MEvent := handle_command mW .nextQueueItem s3W

/-- Second queue advance. -/
def c2W : ManagerState × List MEvent := handle_command mW .nextQueueItem c1W.1

/-- Third queue advance. -/
def c3W : ManagerState × List MEvent := handle_command mW .nextQueueItem c2W.1

/-- Fourth queue advance (queue now empty). -/
def c4W : ManagerState × List MEvent := handle_command mW .nextQueueItem c3W.1

/-- A monitor state with an empty fingerprint slot. -/
def sM : MonitorState := { last_hash := "" }

/-- A concrete fingerprint function for closed evaluation. -/
def hashW : String → String := fun s => s ++ "#"

/-- A store with two snippets in two categories. -/
def dbS : DBState :=
  { init_state 100 with
      snippets :=
        [ { id := 1, category_id := 1, title := "t1", content := "c1",
            is_masked := false, usage_count := 0, updated_at := 10 }
        , { id := 2, category_id := 2, title := "t2", content := "c2",
            is_masked := false, usage_count := 0, updated_at := 11 } ]
      nextSnippetId := 3 }

/-- The snippet of `dbS` surviving deletion of category 2. -/
def snipW : Snippet :=
  { id := 1, category_id := 1, title := "t1", content := "c1",
    is_masked := false, usage_count := 0, updated_at := 10 }

/-- A store whose categories contain a `sort_order` tie. -/
def dbC : DBState :=
  { init_state 100 with
      categories :=
        [ { id := 1, name := "A", icon := none, sort_order := 1, is_locked := false }
        , { id := 2, name := "B", icon := none, sort_order := 0, is_locked := false }
        , { id := 3, name := "C", icon := none, sort_order := 1, is_locked := false } ] }

/-- A category of `dbC`. -/
def catW : Category := { id := 3, name := "C", icon := none, sort_order := 1, is_locked := false }

/-! ## Sorting lemmas -/

theorem mem_insertS {lt : α → α → Bool} {x a : α} :
    ∀ {l : List α}, a ∈ insertS lt x l ↔ a = x ∨ a ∈ l := by
  intro l
  induction l with
  | nil => simp [insertS]
  | cons y ys ih =>
    by_cases h : lt y x = true
    · simp only [insertS, h, if_pos, List.mem_cons, ih]
      tauto
    · simp [insertS, h]

theorem mem_sqlSort {lt : α → α → Bool} {a : α} :
    ∀ {l : List α}, a ∈ sqlSort lt l ↔ a ∈ l := by
  intro l
  induction l with
  | nil => simp [sqlSort]
  | cons y ys ih => simp [sqlSort, mem_insertS, ih]

/-- Inserting into an `LE`-pairwise list keeps it pairwise, provided `lt`
implies `LE`, failure of `lt` implies the converse `LE`, and `LE` is
transitive. -/
theorem pairwise_insertS {lt : α → α → Bool} {LE : α → α → Prop}
    (hlt : ∀ a b, lt a b = true → LE a b)
    (hco : ∀ a b, lt a b = false → LE b a)
    (htr : ∀ a b c, LE a b → LE b c → LE a c)
    (x : α) : ∀ l : List α, l.Pairwise LE → (insertS lt x l).Pairwise LE := by
  intro l
  induction l with
  | nil => intro _; simp [insertS]
  | cons y ys ih =>
    intro hp
    rcases List.pairwise_cons.mp hp with ⟨hy, hys⟩
    by_cases h : lt y x = true
    · simp only [insertS, h, if_pos]
      refine List.pairwise_cons.mpr ⟨?_, ih hys⟩
      intro z hz
      rcases mem_insertS.mp hz with rfl | hz'
      · exact hlt _ _ h
      · exact hy z hz'
    · simp only [insertS, h, if_neg, Bool.not_eq_true]
      have hxy : LE x y := hco _ _ (Bool.eq_false_iff.mpr h)
      refine List.pairwise_cons.mpr ⟨?_, hp⟩
      intro z hz
      rcases List.mem_cons.mp hz with rfl | hz'
      · exact hxy
      · exact htr _ _ _ hxy (hy z hz')

/-- The stable sort of any list is pairwise `LE`. -/
theorem pairwise_sqlSort {lt : α → α → Bool} {LE : α → α → Prop}
    (hlt : ∀ a b, lt a b = true → LE a b)
    (hco : ∀ a b, lt a b = false → LE b a)
    (htr : ∀ a b c, LE a b → LE b c → LE a c) :
    ∀ l : List α, (sqlSort lt l).Pairwise LE := by
  intro l
  induction l with
  | nil => simp [sqlSort]
  | cons y ys ih => exact pairwise_insertS hlt hco htr y _ ih

theorem histLt_imp_rowLE (a b : HistoryRow) (h : histLt a b = true) : rowLE a b := by
  obtain ⟨ia, ta, ca, fa, sa, cra, pa⟩ := a
  obtain ⟨ib, tb, cb, fb, sb, crb, pb⟩ := b
  simp only [histLt] at h
  simp only [rowLE]
  cases pa <;> cases pb <;> simp_all
  all_goals omega

theorem histLt_false_imp_rowLE (a b : HistoryRow) (h : histLt a b = false) : rowLE b a := by
  obtain ⟨ia, ta, ca, fa, sa, cra, pa⟩ := a
  obtain ⟨ib, tb, cb, fb, sb, crb, pb⟩ := b
  simp only [histLt] at h
  simp only [rowLE]
  cases pa <;> cases pb <;> simp_all

theorem rowLE_trans (a b c : HistoryRow) (h1 : rowLE a b) (h2 : rowLE b c) : rowLE a c := by
  obtain ⟨p1, q1⟩ := h1
  obtain ⟨p2, q2⟩ := h2
  simp only [rowLE] at *
  cases ha : a.is_pinned <;> cases hb : b.is_pinned <;> cases hc : c.is_pinned <;> simp_all
  all_goals omega

/-- Sorting history rows by the SQL key yields the §3 listing invariant. -/
theorem sorted_histSort (l : List HistoryRow) : (sqlSort histLt l).Pairwise rowLE :=
  pairwise_sqlSort histLt_imp_rowLE histLt_false_imp_rowLE rowLE_trans l

/-- `row_to_clipboard_item` transports the listing invariant to the returned
entries. -/
theorem pairwise_map_rowLE {l : List HistoryRow} (h : l.Pairwise rowLE) :
    (l.map row_to_clipboard_item).Pairwise pinnedRecencyLE := by
  refine List.pairwise_map.mpr (h.imp ?_)
  intro a b hab
  exact hab

/-- Stability of the category sort: inserting an element whose id is below
every id in an already `catOrder`-pairwise list keeps the list pairwise. -/
theorem insertS_cat (x : Category) :
    ∀ l : List Category, l.Pairwise catOrder → (∀ y ∈ l, x.id < y.id) →
      (insertS catLt x l).Pairwise catOrder := by
  intro l
  induction l with
  | nil => intro _ _; simp [insertS]
  | cons y ys ih =>
    intro hp hid
    rcases List.pairwise_cons.mp hp with ⟨hy, hys⟩
    by_cases h : catLt y x = true
    · simp only [insertS, h, if_pos]
      refine List.pairwise_cons.mpr
        ⟨?_, ih hys (fun z hz => hid z (List.mem_cons_of_mem _ hz))⟩
      intro z hz
      have hso : y.sort_order < x.sort_order := by simpa [catLt] using h
      rcases mem_insertS.mp hz with rfl | hz'
      · exact Or.inl hso
      · exact hy z hz'
    · simp only [insertS, h, if_neg, Bool.not_eq_true]
      have hso : ¬ y.sort_order < x.sort_order := by simpa [catLt] using h
      refine List.pairwise_cons.mpr ⟨?_, hp⟩
      intro z hz
      rcases List.mem_cons.mp hz with rfl | hz'
      · have hidy : x.id < z.id := hid z (List.mem_cons_self z ys)
        simp only [catOrder]
        omega
      · have hyz := hy z hz'
        have hidz : x.id < z.id := hid z (List.mem_cons_of_mem _ hz')
        simp only [catOrder] at hyz ⊢
        omega

/-- Sorting a scan (id-increasing) list of categories by `sort_order` yields
the `sort_order`-then-`id` order: ties fall back to scan order. -/
theorem sorted_catSort :
    ∀ l : List Category, l.Pairwise (fun a b => a.id < b.id) →
      (sqlSort catLt l).Pairwise catOrder := by
  intro l
  induction l with
  | nil => intro _; simp [sqlSort]
  | cons y ys ih =>
    intro hp
    rcases List.pairwise_cons.mp hp with ⟨hy, hys⟩
    exact insertS_cat y _ (ih hys) (fun z hz => hy z (mem_sqlSort.mp hz))

/-! ## Helper lemmas on the store operations -/

/-- The `created_at` bump performed by the dedup path of `insert_history`
preserves every fingerprint. -/
theorem bump_content_hash (rid now : Int) (x : HistoryRow) :
    ((if x.id == rid then { x with created_at := now } else x) : HistoryRow).content_hash
      = x.content_hash := by
  by_cases h : (x.id == rid) = true <;> simp [h]

/-- `insert_history` preserves the at-most-one-row-per-fingerprint
invariant. -/
theorem insert_history_preserves_unique (item : ClipboardItem) (db : DBState)
    (hu : UniqueFingerprint db.history) :
    UniqueFingerprint (insert_history item db).2.history := by
  unfold insert_history
  cases hf : db.history.find? (fun r => r.content_hash == item.content_hash) with
  | some r =>
    simp only [UniqueFingerprint] at hu ⊢
    refine List.pairwise_map.mpr (hu.imp ?_)
    intro a b hab
    by_cases ha : a.id = r.id <;> by_cases hb : b.id = r.id <;> simp [ha, hb, hab]
  | none =>
    simp only [UniqueFingerprint] at hu ⊢
    rw [List.pairwise_append]
    refine ⟨hu, List.pairwise_singleton _ _, ?_⟩
    intro a ha b hb
    rw [List.mem_singleton] at hb
    subst hb
    have hna := List.find?_eq_none.mp hf a ha
    simpa using hna

/-- `find?` by id over the pin-update map rewrites the found row. -/
theorem find?_pin_map (l : List HistoryRow) (id : Int) (ns : Bool) :
    (l.map (fun x => if x.id == id then { x with is_pinned := ns } else x)).find?
        (fun r => r.id == id)
      = (l.find? (fun r => r.id == id)).map (fun x => { x with is_pinned := ns }) := by
  rw [List.find?_map]
  have hp : ((fun r : HistoryRow => r.id == id) ∘
      (fun x : HistoryRow => if x.id == id then { x with is_pinned := ns } else x))
        = (fun r : HistoryRow => r.id == id) := by
    funext x
    by_cases h : x.id = id
    · simp [h]
    · simp [h]
  rw [hp]
  cases hf : l.find? (fun r => r.id == id) with
  | none => rfl
  | some r =>
    have hrid : r.id = id := by
      have := @List.find?_some _ (fun r : HistoryRow => r.id == id) r l hf
      simpa using this
    simp [hrid]

/-- Two successive pin-update maps at the same id collapse to the second. -/
theorem pin_map_pin_map (id : Int) (n1 n2 : Bool) (x : HistoryRow) :
    (fun y => if y.id == id then { y with is_pinned := n2 } else y)
        ((fun y => if y.id == id then { y with is_pinned := n1 } else y) x)
      = (if x.id == id then { x with is_pinned := n2 } else x) := by
  by_cases h : (x.id == id) = true <;> simp [h]

/-- In a list with pairwise-distinct ids, any member sharing the id of a
`find?`-result is that result. -/
theorem eq_of_mem_of_find?_id {l : List HistoryRow} {id : Int} {r x : HistoryRow}
    (hr : l.find? (fun y => y.id == id) = some r)
    (hnd : l.Pairwise (fun a b => a.id ≠ b.id))
    (hx : x ∈ l) (hxid : x.id = id) : x = r := by
  have hrmem : r ∈ l := List.mem_of_find?_eq_some hr
  have hrid : r.id = id := by
    have := @List.find?_some _ (fun y : HistoryRow => y.id == id) r l hr
    simpa using this
  by_contra hne
  have hsymm : Symmetric (fun a b : HistoryRow => a.id ≠ b.id) := by
    intro a b h
    exact fun e => h e.symm
  exact (hnd.forall hsymm hx hrmem hne) (hxid.trans hrid.symm)

/-! ## Claim theorems -/

/-- C5: for every store state and every (limit, offset), `get_recent_history`
returns at most `limit` entries, and the returned list is sorted pinned rows
before unpinned rows and, within each of those two groups, by `created_at`
descending. -/
theorem get_recent_history_spec (db : DBState) (limit offset : Nat) :
    (get_recent_history limit offset db).length ≤ limit ∧
      (get_recent_history limit offset db).Pairwise pinnedRecencyLE := by
  constructor
  · simp only [get_recent_history, List.length_map, List.length_take]
    exact Nat.min_le_left _ _
  · unfold get_recent_history
    apply pairwise_map_rowLE
    exact List.Pairwise.sublist
      ((List.take_sublist _ _).trans (List.drop_sublist _ _))
      (sorted_histSort db.history)

/-- C4: every entry returned by `search_history` has a shadow-index entry
matching the query under the index's match semantics `m`; at most 50 entries
are returned; and the result is sorted pinned-first then `created_at`
descending (not by relevance rank). -/
theorem search_history_spec (m : String → FtsEntry → Bool) (q : String) (db : DBState)
    (r : ClipboardItem) (hr : r ∈ search_history m q db) :
    (search_history m q db).length ≤ 50 ∧
      (search_history m q db).Pairwise pinnedRecencyLE ∧
      ∃ e ∈ db.historyFts, m q e = true ∧ r.id = some e.rowid := by
  refine ⟨?_, ?_, ?_⟩
  · simp only [search_history, List.length_map, List.length_take]
    exact Nat.min_le_left _ _
  · unfold search_history
    apply pairwise_map_rowLE
    exact List.Pairwise.sublist (List.take_sublist _ _) (sorted_histSort _)
  · unfold search_history at hr
    rcases List.mem_map.mp hr with ⟨row, hrow, rfl⟩
    have hrow2 := mem_sqlSort.mp (List.mem_of_mem_take hrow)
    rcases List.mem_filter.mp hrow2 with ⟨_, hpred⟩
    rcases List.any_eq_true.mp hpred with ⟨e, he, heq⟩
    rcases List.mem_filter.mp he with ⟨hefts, hem⟩
    refine ⟨e, hefts, hem, ?_⟩
    have : e.rowid = row.id := by simpa using heq
    simp [row_to_clipboard_item, this]

/-- C2: after `delete_history id`, the shadow index holds no entry for the
deleted rowid, and no search — for any query and any match semantics —
returns an entry with the deleted id. -/
theorem delete_history_search_consistency (db : DBState) (id : Int)
    (m : String → FtsEntry → Bool) (q : String) (e : FtsEntry) (r : ClipboardItem)
    (he : e ∈ (delete_history id db).historyFts)
    (hr : r ∈ search_history m q (delete_history id db)) :
    e.rowid ≠ id ∧ r.id ≠ some id := by
  constructor
  · have h2 : e ∈ db.historyFts ∧ ¬ e.rowid = id := by simpa [delete_history] using he
    exact h2.2
  · unfold search_history at hr
    rcases List.mem_map.mp hr with ⟨row, hrow, rfl⟩
    have hrow2 := mem_sqlSort.mp (List.mem_of_mem_take hrow)
    rcases List.mem_filter.mp hrow2 with ⟨hmem, _⟩
    have hne : ¬ row.id = id := by
      have h3 : row ∈ db.history ∧ ¬ row.id = id := by
        simpa [delete_history] using hmem
      exact h3.2
    simp [row_to_clipboard_item, hne]

/-- C8: deleting a category cascades: every snippet referencing it is
deleted, and no snippet referencing it is retrievable via `get_snippets`. -/
theorem delete_category_cascades (db : DBState) (cid c : Int) (s : Snippet)
    (hs : s ∈ get_snippets c (delete_category cid db)) :
    (delete_category cid db).snippets =
        db.snippets.filter (fun x => x.category_id != cid) ∧
      s.category_id ≠ cid ∧
      get_snippets cid (delete_category cid db) = [] := by
  refine ⟨rfl, ?_, ?_⟩
  · unfold get_snippets delete_category at hs
    have hmem := mem_sqlSort.mp hs
    have h1 := (List.mem_filter.mp (List.mem_filter.mp hmem).1).2
    simpa using h1
  · unfold get_snippets delete_category
    have hnil : (db.snippets.filter (fun x => x.category_id != cid)).filter
        (fun x => x.category_id == cid) = [] := by
      rw [List.filter_filter]
      apply List.filter_eq_nil_iff.mpr
      intro x _
      by_cases h : x.category_id = cid <;> simp [h]
    simp only [hnil]
    rfl

/-- C9: `get_categories` lists every category, ordered by `sort_order` with
ties broken by id — the id tie-break arising from the stable sort over the
id-ordered table scan. -/
theorem get_categories_sorted (db : DBState) (c : Category)
    (h : db.categories.Pairwise (fun a b => a.id < b.id)) :
    (get_categories db).Pairwise catOrder ∧
      (c ∈ get_categories db ↔ c ∈ db.categories) :=
  ⟨sorted_catSort _ h, mem_sqlSort⟩

/-- Folding any sequence of inserts over a store satisfying the dedup
invariant preserves it. -/
theorem foldl_insert_unique (items : List ClipboardItem) :
    ∀ d : DBState, UniqueFingerprint d.history →
      UniqueFingerprint ((items.foldl (fun d it => (insert_history it d).2) d).history) := by
  induction items with
  | nil => intro d h; exact h
  | cons it its ih =>
    intro d h
    exact ih _ (insert_history_preserves_unique it d h)

/-- C1: `insert_history` dedups by fingerprint — if a row with the item's
fingerprint exists, only that row's `created_at` is bumped (all other
columns and rows, and the other tables, are unchanged) and its id is
returned; otherwise a fresh row is appended and its new id returned; the
at-most-one-row-per-fingerprint invariant is preserved, and holds after any
sequence of inserts from a freshly initialized store. -/
theorem insert_history_dedup (db : DBState) (item : ClipboardItem) (t : Int)
    (items : List ClipboardItem) (hu : UniqueFingerprint db.history) :
    (∀ r, db.history.find? (fun x => x.content_hash == item.content_hash) = some r →
        (insert_history item db).1 = r.id ∧
        (insert_history item db).2.history =
          db.history.map
            (fun x => if x.id == r.id then { x with created_at := db.now } else x) ∧
        (insert_history item db).2.categories = db.categories ∧
        (insert_history item db).2.snippets = db.snippets) ∧
    (db.history.find? (fun x => x.content_hash == item.content_hash) = none →
        (insert_history item db).1 = db.nextHistoryId ∧
        (insert_history item db).2.history = db.history ++
          [{ id := db.nextHistoryId, type_ := item.type_.toInt, content := item.content,
             content_hash := item.content_hash, source_app := item.source_app,
             created_at := db.now, is_pinned := item.is_pinned }]) ∧
    UniqueFingerprint (insert_history item db).2.history ∧
    UniqueFingerprint
      ((items.foldl (fun d it => (insert_history it d).2) (init_state t)).history) := by
  refine ⟨?_, ?_, insert_history_preserves_unique item db hu, ?_⟩
  · intro r hr
    unfold insert_history
    rw [hr]
    exact ⟨rfl, rfl, rfl, rfl⟩
  · intro hn
    unfold insert_history
    rw [hn]
    exact ⟨rfl, rfl⟩
  · exact foldl_insert_unique items (init_state t) (by simp [init_state, UniqueFingerprint])

/-- C7: `toggle_pin` on an existing row returns the negation of the row's
pin flag, and toggling twice returns the flag value to the original and
leaves every history row as it was. -/
theorem toggle_pin_involutive (db : DBState) (id : Int) (r : HistoryRow)
    (hr : db.history.find? (fun x => x.id == id) = some r)
    (hnd : db.history.Pairwise (fun a b => a.id ≠ b.id)) :
    ∃ db1, toggle_pin id db = some (!r.is_pinned, db1) ∧
      ∃ db2, toggle_pin id db1 = some (r.is_pinned, db2) ∧ db2.history = db.history := by
  unfold toggle_pin
  rw [hr]
  refine ⟨_, rfl, ?_⟩
  rw [find?_pin_map db.history id (!r.is_pinned), hr]
  simp only [Option.map_some']
  simp only [Bool.not_not]
  refine ⟨_, rfl, ?_⟩
  rw [List.map_map]
  have hcomp : ((fun x : HistoryRow =>
      if x.id == id then { x with is_pinned := r.is_pinned } else x) ∘
      (fun x : HistoryRow => if x.id == id then { x with is_pinned := !r.is_pinned } else x))
        = (fun x : HistoryRow =>
            if x.id == id then { x with is_pinned := r.is_pinned } else x) :=
    funext (fun x => pin_map_pin_map id (!r.is_pinned) r.is_pinned x)
  rw [hcomp]
  have hid : ∀ x ∈ db.history,
      (if x.id == id then ({ x with is_pinned := r.is_pinned } : HistoryRow) else x) = x := by
    intro x hx
    by_cases h : x.id = id
    · have hxr : x = r := eq_of_mem_of_find?_id hr hnd hx h
      subst hxr
      rw [if_pos (show (x.id == id) = true by simpa using h)]
    · simp [h]
  rw [List.map_congr_left hid]
  exact List.map_id _

/-- C6: on a text tick the content is trimmed; an empty trim discards the
tick without touching the slot; otherwise an event is emitted iff the
trimmed content's fingerprint differs from the slot, which is then set to
that fingerprint; hence only consecutive duplicates are suppressed and
copy `a`, copy `b`, copy `a` again emits `a` twice. -/
theorem monitor_text_tick_spec (hash : String → String) (s : MonitorState)
    (t a b : String) (now n1 n2 n3 : Int)
    (ha : (clean_text a).isEmpty = false)
    (hb : (clean_text b).isEmpty = false)
    (hab : hash (clean_text a) ≠ hash (clean_text b))
    (h0 : hash (clean_text a) ≠ s.last_hash) :
    ((clean_text t).isEmpty = true → tickText hash t s now = (none, s)) ∧
    ((clean_text t).isEmpty = false → hash (clean_text t) ≠ s.last_hash →
        tickText hash t s now =
          (some (mkTextItem (clean_text t) (hash (clean_text t)) now),
            { last_hash := hash (clean_text t) })) ∧
    ((clean_text t).isEmpty = false → hash (clean_text t) = s.last_hash →
        tickText hash t s now = (none, s)) ∧
    (tickText hash a s n1).1 = some (mkTextItem (clean_text a) (hash (clean_text a)) n1) ∧
    (tickText hash a ((tickText hash b ((tickText hash a s n1).2) n2).2) n3).1 =
      some (mkTextItem (clean_text a) (hash (clean_text a)) n3) := by
  refine ⟨?_, ?_, ?_, ?_, ?_⟩
  · intro h
    simp [tickText, h]
  · intro h1 h2
    simp [tickText, h1, h2]
  · intro h1 h2
    simp [tickText, h1, h2]
  · simp [tickText, ha, h0]
  · have e1 : (tickText hash a s n1).2 = { last_hash := hash (clean_text a) } := by
      simp [tickText, ha, h0]
    rw [e1]
    have e2 : (tickText hash b ({ last_hash := hash (clean_text a) } : MonitorState) n2).2
        = { last_hash := hash (clean_text b) } := by
      simp [tickText, hb, Ne.symm hab]
    rw [e2]
    simp [tickText, ha, hab]

/-- C10: in the image path, when the fingerprint is new the slot is updated
before the cache save is attempted, so a failed save emits nothing yet keeps
the fingerprint, and the same image content is never re-emitted on a later
tick whatever that tick's save outcome. -/
theorem monitor_image_tick_spec (h : String) (sr : Option String) (s : MonitorState)
    (n1 n2 : Int) (hne : h ≠ s.last_hash) :
    tickImage h none s n1 = (.error (), { last_hash := h }) ∧
    tickImage h sr { last_hash := h } n2 = (.ok none, { last_hash := h }) := by
  constructor
  · simp [tickImage, hne]
  · simp [tickImage]

/-- A capture handled while queue mode is on: persist, append to the FIFO,
leave the flag untouched. -/
theorem capture_state_queue_mode (item : ClipboardItem) (s : ManagerState)
    (hq : s.is_queue_mode = true) :
    (handle_clipboard_update item s).1 =
      { s with db := (insert_history item s.db).2,
               paste_queue := s.paste_queue ++ [item] } := by
  simp [handle_clipboard_update, hq]

/-- C3: with queue mode on and an empty FIFO, captures X, Y, Z are appended
in order; three `NextQueueItem` commands replay X, Y, Z each reporting the
new queue length; a fourth reports "Queue empty" replaying nothing; and a
capture while queue mode is off never appends to the FIFO. -/
theorem queue_mode_fifo_replay (m : String → FtsEntry → Bool) (s t : ManagerState)
    (X Y Z item : ClipboardItem)
    (hq : s.is_queue_mode = true) (he : s.paste_queue = [])
    (hxy : X.content_hash ≠ Y.content_hash) (hyz : Y.content_hash ≠ Z.content_hash)
    (hxz : X.content_hash ≠ Z.content_hash)
    (ht : t.is_queue_mode = false) :
    let s3 := (handle_clipboard_update Z
      (handle_clipboard_update Y (handle_clipboard_update X s).1).1).1
    let c1 := handle_command m .nextQueueItem s3
    let c2 := handle_command m .nextQueueItem c1.1
    let c3 := handle_command m .nextQueueItem c2.1
    let c4 := handle_command m .nextQueueItem c3.1
    s3.paste_queue = [X, Y, Z] ∧
    c1.2 = [.uiHide, .osPaste X, .uiNotify "Queue Size: 2"] ∧
    c1.1.paste_queue = [Y, Z] ∧
    c2.2 = [.uiHide, .osPaste Y, .uiNotify "Queue Size: 1"] ∧
    c2.1.paste_queue = [Z] ∧
    c3.2 = [.uiHide, .osPaste Z, .uiNotify "Queue Size: 0"] ∧
    c3.1.paste_queue = [] ∧
    c4.2 = [.uiNotify "Queue empty"] ∧
    c4.1 = c3.1 ∧
    (handle_clipboard_update item t).1.paste_queue = t.paste_queue := by
  intro s3 c1 c2 c3 c4
  have h1 := capture_state_queue_mode X s hq
  have hq1 : (handle_clipboard_update X s).1.is_queue_mode = true := by
    rw [h1]; exact hq
  have hp1 : (handle_clipboard_update X s).1.paste_queue = [X] := by
    rw [h1]; simp [he]
  have h2 := capture_state_queue_mode Y _ hq1
  have hq2 : (handle_clipboard_update Y (handle_clipboard_update X s).1).1.is_queue_mode
      = true := by
    rw [h2]; exact hq1
  have hp2 : (handle_clipboard_update Y (handle_clipboard_update X s).1).1.paste_queue
      = [X, Y] := by
    rw [h2]; simp [hp1]
  have h3 := capture_state_queue_mode Z _ hq2
  have hp3 : s3.paste_queue = [X, Y, Z] := by
    show (handle_clipboard_update Z _).1.paste_queue = _
    rw [h3]; simp [hp2]
  have hc1 : c1 = ({ s3 with paste_queue := [Y, Z] },
      [.uiHide, .osPaste X, .uiNotify "Queue Size: 2"]) := by
    show handle_command m .nextQueueItem s3 = _
    simp [handle_command, hp3, perform_paste] <;> rfl
  have hpc1 : c1.1.paste_queue = [Y, Z] := by rw [hc1]
  have hc2 : c2 = ({ c1.1 with paste_queue := [Z] },
      [.uiHide, .osPaste Y, .uiNotify "Queue Size: 1"]) := by
    show handle_command m .nextQueueItem c1.1 = _
    simp [handle_command, hpc1, perform_paste] <;> rfl
  have hpc2 : c2.1.paste_queue = [Z] := by rw [hc2]
  have hc3 : c3 = ({ c2.1 with paste_queue := [] },
      [.uiHide, .osPaste Z, .uiNotify "Queue Size: 0"]) := by
    show handle_command m .nextQueueItem c2.1 = _
    simp [handle_command, hpc2, perform_paste] <;> rfl
  have hpc3 : c3.1.paste_queue = [] := by rw [hc3]
  have hc4 : c4 = (c3.1, [.uiNotify "Queue empty"]) := by
    show handle_command m .nextQueueItem c3.1 = _
    simp [handle_command, hpc3]
  refine ⟨hp3, by rw [hc1], hpc1, by rw [hc2], hpc2, by rw [hc3], hpc3,
    by rw [hc4], by rw [hc4], ?_⟩
  simp [handle_clipboard_update, ht]

/-! ## Closed witnesses evaluating the theorems on the fixtures -/

/-- C1 witness: re-inserting `itemW1` into `dbW` returns its existing id 1
and keeps the dedup invariant. -/
theorem insert_history_dedup_witness :
    UniqueFingerprint dbW.history ∧
      (insert_history itemW1 dbW).1 = 1 ∧
      UniqueFingerprint (insert_history itemW1 dbW).2.history := by
  have hu : UniqueFingerprint dbW.history := by
    show List.Pairwise (fun a b => a.content_hash ≠ b.content_hash) dbW.history
    decide
  have h := insert_history_dedup dbW itemW1 0 [] hu
  exact ⟨hu, (h.1 rowW1 (by decide)).1, h.2.2.1⟩

/-- C2 witness: after deleting row 1 of `dbW`, the surviving index entry and
the surviving search hit for "gamma" are not the deleted row. -/
theorem delete_history_search_consistency_witness :
    (eW ∈ (delete_history 1 dbW).historyFts ∧
        rW ∈ search_history mW "gamma" (delete_history 1 dbW)) ∧
      eW.rowid ≠ 1 ∧ rW.id ≠ some 1 :=
  ⟨⟨by decide, by decide⟩,
    delete_history_search_consistency dbW 1 mW "gamma" eW rW (by decide) (by decide)⟩

/-- C3 witness: the fixture run of three queued captures and four queue
advances. -/
theorem queue_mode_fifo_replay_witness :
    s3W.paste_queue = [itemW1, itemW2, itemW3] ∧
    c1W.2 = [.uiHide, .osPaste itemW1, .uiNotify "Queue Size: 2"] ∧
    c1W.1.paste_queue = [itemW2, itemW3] ∧
    c2W.2 = [.uiHide, .osPaste itemW2, .uiNotify "Queue Size: 1"] ∧
    c2W.1.paste_queue = [itemW3] ∧
    c3W.2 = [.uiHide, .osPaste itemW3, .uiNotify "Queue Size: 0"] ∧
    c3W.1.paste_queue = [] ∧
    c4W.2 = [.uiNotify "Queue empty"] ∧
    c4W.1 = c3W.1 ∧
    (handle_clipboard_update itemW1 t0).1.paste_queue = t0.paste_queue :=
  queue_mode_fifo_replay mW s0 t0 itemW1 itemW2 itemW3 itemW1 rfl rfl
    (by decide) (by decide) (by decide) rfl

/-- C4 witness: the "gamma" search over `dbW` hits `rW` and satisfies the
cap, ordering and match consequences. -/
theorem search_history_spec_witness :
    rW ∈ search_history mW "gamma" dbW ∧
      ((search_history mW "gamma" dbW).length ≤ 50 ∧
        (search_history mW "gamma" dbW).Pairwise pinnedRecencyLE ∧
        ∃ e ∈ dbW.historyFts, mW "gamma" e = true ∧ rW.id = some e.rowid) :=
  ⟨by decide, search_history_spec mW "gamma" dbW rW (by decide)⟩

/-- C6 witness: the copy-a, copy-b, copy-a-again run from an empty slot. -/
theorem monitor_text_tick_spec_witness :
    ((clean_text " aa ").isEmpty = false ∧ (clean_text "bb").isEmpty = false ∧
        hashW (clean_text " aa ") ≠ hashW (clean_text "bb") ∧
        hashW (clean_text " aa ") ≠ sM.last_hash) ∧
      (tickText hashW " aa " sM 1).1
          = some (mkTextItem (clean_text " aa ") (hashW (clean_text " aa ")) 1) ∧
      (tickText hashW " aa "
          ((tickText hashW "bb" ((tickText hashW " aa " sM 1).2) 2).2) 3).1
        = some (mkTextItem (clean_text " aa ") (hashW (clean_text " aa ")) 3) := by
  have h := monitor_text_tick_spec hashW sM " aa " " aa " "bb" 0 1 2 3
    (by decide) (by decide) (by decide) (by decide)
  exact ⟨⟨by decide, by decide, by decide, by decide⟩, h.2.2.2.1, h.2.2.2.2⟩

/-- C7 witness: toggling the pin of row 1 of `dbW` twice restores the
history. -/
theorem toggle_pin_involutive_witness :
    dbW.history.find? (fun x => x.id == 1) = some rowW1 ∧
      (∃ db1, toggle_pin 1 dbW = some (!rowW1.is_pinned, db1) ∧
        ∃ db2, toggle_pin 1 db1 = some (rowW1.is_pinned, db2) ∧
          db2.history = dbW.history) :=
  ⟨by decide, toggle_pin_involutive dbW 1 rowW1 (by decide) (by decide)⟩

/-- C8 witness: deleting category 2 of `dbS` keeps only the category-1
snippet and empties category 2's listing. -/
theorem delete_category_cascades_witness :
    snipW ∈ get_snippets 1 (delete_category 2 dbS) ∧
      ((delete_category 2 dbS).snippets
          = dbS.snippets.filter (fun x => x.category_id != 2) ∧
        snipW.category_id ≠ 2 ∧
        get_snippets 2 (delete_category 2 dbS) = []) :=
  ⟨by decide, delete_category_cascades dbS 2 1 snipW (by decide)⟩

/-- C9 witness: the tied categories of `dbC` come back sorted by
`sort_order` then id. -/
theorem get_categories_sorted_witness :
    dbC.categories.Pairwise (fun a b => a.id < b.id) ∧
      ((get_categories dbC).Pairwise catOrder ∧
        (catW ∈ get_categories dbC ↔ catW ∈ dbC.categories)) :=
  ⟨by decide, get_categories_sorted dbC catW (by decide)⟩

/-- C10 witness: a failed image save from an empty slot still claims the
fingerprint, and the content is not re-emitted afterwards. -/
theorem monitor_image_tick_spec_witness :
    "ih" ≠ sM.last_hash ∧
      (tickImage "ih" none sM 1 = (.error (), { last_hash := "ih" }) ∧
        tickImage "ih" (some "p.png") { last_hash := "ih" } 2
          = (.ok none, { last_hash := "ih" })) :=
  ⟨by decide, monitor_image_tick_spec "ih" (some "p.png") sM 1 2 (by decide)⟩

end Pica
